import Mathlib

/-!
# CanonComparator — verification of the MusicBrainz client core

Shallow embedding of `src/canoncomparator/mb_client.py`: the rate-limited,
cache-backed remote-metadata client.  Python floats (timestamps, day policies,
sleep durations) are modelled as rationals; Python `dict`s as association
lists in insertion order; SQLite rows as a record type; effects (HTTP
responses, clock reads, random jitter, injected cache faults) as explicit
oracles threaded through the definitions.
-/

namespace CanonComparator

/-! ## Python `str`/`int`/`float` conversions

`_write_cache` serializes the histogram with `json.dumps({str(k): v ...})`
and the readers rebuild it with `{int(k): int(v) ...}`; `_mb_get` parses the
`Retry-After` header with `float(ra)`.  We model the decimal conversions
concretely on strings. -/

/-- The character for a single decimal digit, as Python `str` produces it. -/
def digitChar (d : Nat) : Char := Char.ofNat (48 + d)

/-- Numeric value of a decimal digit character. -/
def charVal (c : Char) : Nat := c.toNat - 48

/-- Python `str` on a non-negative integer: its decimal digits, most
significant first (`str(0) = "0"`). -/
def natToStr (n : Nat) : String :=
  if n = 0 then "0" else String.mk (((Nat.digits 10 n).reverse).map digitChar)

/-- Python `int` on a string of decimal digits. -/
def strToNat (s : String) : Nat :=
  Nat.ofDigits 10 ((s.data.map charVal).reverse)

/-- Python `str` on an integer: an optional leading minus sign followed by
the decimal digits. -/
def intToStr (i : Int) : String :=
  if i < 0 then String.mk ('-' :: (natToStr i.natAbs).data) else natToStr i.natAbs

/-- Python `int` on the strings produced by `str` of an integer. -/
def strToInt (s : String) : Int :=
  if s.data.head? = some '-' then
    -(strToNat (String.mk s.data.tail) : Int)
  else
    (strToNat s : Int)

theorem charVal_digitChar {d : Nat} (hd : d < 10) : charVal (digitChar d) = d := by
  interval_cases d <;> rfl

theorem digitChar_ne_dash {d : Nat} (hd : d < 10) : digitChar d ≠ '-' := by
  interval_cases d <;> decide

theorem strToNat_natToStr (n : Nat) : strToNat (natToStr n) = n := by
  unfold natToStr
  split
  · subst n; rfl
  · unfold strToNat
    show Nat.ofDigits 10
      (((((Nat.digits 10 n).reverse).map digitChar).map charVal).reverse) = n
    rw [List.map_map]
    have hmap : List.map (charVal ∘ digitChar) (Nat.digits 10 n).reverse
        = List.map id (Nat.digits 10 n).reverse :=
      List.map_congr_left (fun d hd => charVal_digitChar
        (Nat.digits_lt_base (by norm_num) (List.mem_reverse.mp hd)))
    rw [hmap, List.map_id, List.reverse_reverse, Nat.ofDigits_digits]

theorem head_natToStr_ne_dash (n : Nat) : (natToStr n).data.head? ≠ some '-' := by
  unfold natToStr
  split
  · decide
  · next h =>
    have hne : (Nat.digits 10 n).reverse ≠ [] := by
      simpa using Nat.digits_ne_nil_iff_ne_zero.mpr h
    cases hrev : (Nat.digits 10 n).reverse with
    | nil => exact absurd hrev hne
    | cons d rest =>
      have hd : d < 10 := Nat.digits_lt_base (by norm_num)
        (List.mem_reverse.mp (hrev ▸ List.mem_cons_self d rest))
      show ((String.mk ((d :: rest).map digitChar)).data.head? ≠ some '-')
      simpa using digitChar_ne_dash hd

theorem strToInt_intToStr (i : Int) : strToInt (intToStr i) = i := by
  unfold intToStr
  split
  · next hneg =>
    unfold strToInt
    have : (String.mk ('-' :: (natToStr i.natAbs).data)).data.head? = some '-' := rfl
    rw [if_pos this]
    show -(strToNat (String.mk (natToStr i.natAbs).data) : Int) = i
    have hdata : strToNat (String.mk (natToStr i.natAbs).data) = strToNat (natToStr i.natAbs) := rfl
    rw [hdata, strToNat_natToStr]
    omega
  · next hpos =>
    unfold strToInt
    rw [if_neg (head_natToStr_ne_dash i.natAbs), strToNat_natToStr]
    omega

/-- Python `float` on a `Retry-After` header value: an optional sign, then
decimal digits with an optional fractional part; `none` when unparseable. -/
def pyFloat (s : String) : Option ℚ :=
  let signed : ℚ × List Char :=
    match s.data with
    | '-' :: r => (-1, r)
    | '+' :: r => (1, r)
    | cs => (1, cs)
  let digitsVal : List Char → Option Nat := fun cs =>
    if cs.all (fun c => 48 ≤ c.toNat && c.toNat ≤ 57) then
      some (Nat.ofDigits 10 ((cs.map charVal).reverse))
    else none
  match signed.2.splitOn '.' with
  | [ip] =>
      if ip = [] then none
      else (digitsVal ip).map (fun n => signed.1 * n)
  | [ip, fp] =>
      if ip = [] && fp = [] then none
      else
        match digitsVal ip, digitsVal fp with
        | some a, some b => some (signed.1 * ((a : ℚ) + (b : ℚ) / 10 ^ fp.length))
        | _, _ => none
  | _ => none

/-! ## Transport (`_mb_get`, source lines 44–108)

One attempt issues the HTTP GET after the throttle wait, updates the shared
`_last_mb_request` when a response arrives, and either returns the JSON body,
retries on a retryable signal or a network fault, or raises.  The environment
supplies the server's behaviour per attempt, the `random.uniform(0, 0.5)`
draws, and the successive `time.time()` readings; the run is recorded as an
event trace.  Exceptions are identified by their Python type name. -/

/-- A page of the `/release` listing: the `releases` array (absent or
non-list read as `[]`) and the `release-count` field (absent or non-integer
read as `none`).  A medium carries `track-count` when it is an integer and
`tracks` when it is a list (modelled by its elements, which are never
inspected beyond their number). -/
structure Medium where
  track_count : Option Int
  tracks : Option (List Unit)
deriving DecidableEq

/-- One element of the `releases` array; `media` is `none` when absent or
not a list. -/
structure Release where
  media : Option (List Medium)
deriving DecidableEq

/-- One JSON response body of the paginated `/release` endpoint. -/
structure PageData where
  releases : Option (List Release)
  release_count : Option Int
deriving DecidableEq

/-- What `session.get` does on one attempt: raise a network-level exception,
or return a response with a status code, an optional `Retry-After` header and
a body (`none` models a body on which `r.json()` raises). -/
inductive Resp where
  | net (name : String)
  | http (status : Nat) (retryAfter : Option String) (body : Option PageData)
deriving DecidableEq

/-- Observable events of one `_mb_get` run, in order. -/
inductive Ev where
  | throttleSleep (d : ℚ)
  | request (attempt : Nat)
  | updateLast (t : ℚ)
  | backoffSleep (d : ℚ)
deriving DecidableEq

/-- Oracles consumed by the transport: the server's response to each attempt,
the jitter drawn at each attempt, and the successive `time.time()` values. -/
structure TransportEnv where
  server : Nat → Resp
  jitter : Nat → ℚ
  clock : Nat → ℚ

/-- `max_retries` of `_mb_get` (source line 53). -/
def MAX_RETRIES : Nat := 5

/-- The statuses retried by `_mb_get` (source line 71). -/
def retryStatus (s : Nat) : Bool :=
  s == 429 || s == 500 || s == 502 || s == 503 || s == 504

/-- Exponential backoff `min(30.0, 2 ** attempt)` (source lines 81 and 99). -/
def backoff (attempt : Nat) : ℚ := min 30 ((2 : ℚ) ^ attempt)

/-- Sleep chosen for a retryable response (source lines 72–81): a parseable
`Retry-After` wins, an unparseable one falls back to `1.0`, and without the
header the exponential backoff plus the jitter draw is used. -/
def retrySleep (retryAfter : Option String) (attempt : Nat) (j : ℚ) : ℚ :=
  match retryAfter with
  | some ra =>
      match pyFloat ra with
      | some x => x
      | none => 1
  | none => backoff attempt + j

/-- The retry loop of `_mb_get`, recursing on the number of loop iterations
left (`fuel = max_retries + 1 - attempt` at the top call).  Returns the
result — `Except.error` carries the Python exception type name — and the
event trace.  The fuel-0 case is the defensive fall-through after the loop
(source lines 106–108). -/
def mbGetAux (env : TransportEnv) (maxRetries : Nat) :
    Nat → Nat → Nat → ℚ → Option String → Except String PageData × List Ev
  | 0, _, _, _, lastExc => (.error (lastExc.getD "RuntimeError"), [])
  | fuel + 1, attempt, tIdx, last, lastExc =>
      let now := env.clock tIdx
      let throttleEvs : List Ev :=
        if now - last < 1 then [.throttleSleep (1 - (now - last))] else []
      match env.server attempt with
      | .net name =>
          if attempt < maxRetries then
            let s := backoff attempt + env.jitter attempt
            let rec2 := mbGetAux env maxRetries fuel (attempt + 1) (tIdx + 1) last (some name)
            (rec2.1, throttleEvs ++ [.request attempt, .backoffSleep s] ++ rec2.2)
          else
            (.error name, throttleEvs ++ [.request attempt])
      | .http status ra body =>
          let t2 := env.clock (tIdx + 1)
          let base := throttleEvs ++ [.request attempt, .updateLast t2]
          if retryStatus status && decide (attempt < maxRetries) then
            let s := retrySleep ra attempt (env.jitter attempt)
            let rec2 := mbGetAux env maxRetries fuel (attempt + 1) (tIdx + 2) t2 lastExc
            (rec2.1, base ++ [.backoffSleep s] ++ rec2.2)
          else
            if 400 ≤ status ∧ status < 600 then (.error "HTTPError", base)
            else
              match body with
              | some d => (.ok d, base)
              | none => (.error "JSONDecodeError", base)

/-- One `_mb_get` call: six loop iterations starting at attempt 0, the
throttle reference time starting from the current `_last_mb_request`. -/
def _mb_get (env : TransportEnv) (last0 : ℚ) : Except String PageData × List Ev :=
  mbGetAux env MAX_RETRIES (MAX_RETRIES + 1) 0 0 last0 none

/-- Number of request attempts issued during a run. -/
def countAttempts (tr : List Ev) : Nat :=
  (tr.filter fun e => match e with | .request _ => true | _ => false).length

/-- Whether a run failed (the call raised). -/
def isErr (r : Except String PageData) : Bool :=
  match r with
  | .error _ => true
  | .ok _ => false

/-! ## Aggregation (`_release_total_tracks`, `_mode_from_hist`, source lines 111–138) -/

/-- Loop body of `_release_total_tracks`: accumulate `track-count`, falling
back to `len(tracks)`, and give up (`None`) when a medium offers neither. -/
def rtAux : List Medium → Int → Option Int
  | [], total => some total
  | m :: rest, total =>
      match m.track_count with
      | some tc => rtAux rest (total + tc)
      | none =>
          match m.tracks with
          | some tracks => rtAux rest (total + tracks.length)
          | none => none

/-- Total tracks across all media of one release (source lines 111–131);
`none` when `media` is absent, not a list, or empty, or when some medium has
neither a `track-count` nor a `tracks` list. -/
def _release_total_tracks (r : Release) : Option Int :=
  match r.media with
  | none => none
  | some [] => none
  | some ms => rtAux ms 0

/-- The contribution of a single medium, when it has one. -/
def mediumContrib (m : Medium) : Option Int :=
  match m.track_count with
  | some tc => some tc
  | none =>
      match m.tracks with
      | some tracks => some (tracks.length : Int)
      | none => none

/-- The sort order of `sorted(hist.items(), key=lambda kv: (-kv[1], kv[0]))`:
higher frequency first, ties by smaller key. -/
def modeLe (a b : Int × Int) : Prop := b.2 < a.2 ∨ (a.2 = b.2 ∧ a.1 ≤ b.1)

instance : DecidableRel modeLe := fun a b => by
  unfold modeLe; infer_instance

instance : IsTotal (Int × Int) modeLe :=
  ⟨fun a b => by unfold modeLe; omega⟩

instance : IsTrans (Int × Int) modeLe :=
  ⟨fun a b c hab hbc => by unfold modeLe at *; omega⟩

/-- `_mode_from_hist` (source lines 134–138): the first key of the histogram
items sorted by descending frequency then ascending key; `none` on the empty
histogram. -/
def _mode_from_hist (hist : List (Int × Int)) : Option Int :=
  match List.insertionSort modeLe hist with
  | [] => none
  | kv :: _ => some kv.1

/-- `hist[tc] = hist.get(tc, 0) + 1` on a `dict` in insertion order: bump the
entry in place when the key is present, append a fresh entry otherwise. -/
def histIncr : List (Int × Int) → Int → List (Int × Int)
  | [], k => [(k, 1)]
  | (k', v) :: rest, k =>
      if k' = k then (k', v + 1) :: rest else (k', v) :: histIncr rest k

/-- Sum of the frequency values of a histogram. -/
def sumValues (hist : List (Int × Int)) : Int := (hist.map Prod.snd).sum

/-! ## Cache store (source lines 141–189)

A row of the `rg_cache` table; the histogram column holds the JSON object
written by `json.dumps({str(k): v ...})`, i.e. string keys in insertion
order.  The table itself is an association list keyed by `rgid`. -/

structure CacheRow where
  fetched_at : ℚ
  release_count : Int
  mode_track_count : Option Int
  histogram_json : List (String × Int)
deriving DecidableEq

/-- The durable `rg_cache` table: one row per rgid. -/
def Store := List (String × CacheRow)

instance : DecidableEq Store := by unfold Store; infer_instance

/-- The aggregated statistics for one release group (source lines 18–24). -/
structure MbRgStats where
  rgid : String
  release_count : Int
  mode_track_count : Option Int
  histogram : List (Int × Int)
  fetched_at : ℚ
deriving DecidableEq

/-- `INSERT ... ON CONFLICT(rgid) DO UPDATE`: replace the row for the key in
place, or append a new row. -/
def upsertRow : Store → String → CacheRow → Store
  | [], rgid, row => [(rgid, row)]
  | (k, r) :: rest, rgid, row =>
      if k = rgid then (k, row) :: rest else (k, r) :: upsertRow rest rgid row

/-- The row written by `_write_cache` (source lines 173–189): the histogram
is serialized with stringified keys. -/
def statsToRow (s : MbRgStats) : CacheRow :=
  ⟨s.fetched_at, s.release_count, s.mode_track_count,
    s.histogram.map (fun kv => (intToStr kv.1, kv.2))⟩

/-- `_write_cache` (source lines 173–189): upsert the serialized row under
`stats.rgid` and commit. -/
def _write_cache (store : Store) (s : MbRgStats) : Store :=
  upsertRow store s.rgid (statsToRow s)

/-- Rebuilding stats from a cache row as `fetch_rg_stats` does (source lines
212–220): the histogram keys are parsed back with `int(k)`. -/
def rowToStats (rgid : String) (row : CacheRow) : MbRgStats :=
  ⟨rgid, row.release_count, row.mode_track_count,
    row.histogram_json.map (fun kv => (strToInt kv.1, kv.2)), row.fetched_at⟩

/-! ## Stats Service orchestrator (`fetch_rg_stats`, source lines 192–283)

The remote side of a `fetch_rg_stats` call is an oracle mapping each
requested offset to the outcome of the corresponding `_mb_get` call — a page
body or a raised exception, identified by its Python type name.  Cache faults
are injected per call site: `ensureFault` for `_ensure_cache`, `readFault`
for the initial `SELECT`, `writeFault` for `_write_cache`.  `now` is the
`time.time()` used for the staleness test (line 226) and `fetchTime` the one
stamped into fresh stats (line 273).  The outer `Option` is pagination fuel:
`none` means the `while True` loop did not finish within the given fuel. -/

structure FetchEnv where
  server : Nat → Except String PageData
  ensureFault : Option String
  readFault : Option String
  writeFault : Option String
  now : ℚ
  fetchTime : ℚ

/-- The per-page release loop (source lines 253–258): every release counts
toward `release_count`; only determinate releases reach the histogram. -/
def processReleases : List (Int × Int) × Int → List Release → List (Int × Int) × Int
  | acc, [] => acc
  | (hist, count), rel :: rest =>
      match _release_total_tracks rel with
      | none => processReleases (hist, count + 1) rest
      | some tc => processReleases (histIncr hist tc, count + 1) rest

/-- The `while True` pagination loop (source lines 240–265), recursing on
fuel: request the page at the current offset, fold its releases into the
accumulators, and stop when `release-count` is missing or the next offset
reaches it.  A raised exception aborts the loop with that exception. -/
def pagLoop (server : Nat → Except String PageData) :
    Nat → Nat → List (Int × Int) → Int → Option (Except String (List (Int × Int) × Int))
  | 0, _, _, _ => none
  | fuel + 1, offset, hist, count =>
      match server offset with
      | .error e => some (.error e)
      | .ok data =>
          let acc := processReleases (hist, count) (data.releases.getD [])
          match data.release_count with
          | none => some (.ok acc)
          | some total =>
              if total ≤ ((offset + 100 : Nat) : Int) then some (.ok acc)
              else pagLoop server fuel (offset + 100) acc.1 acc.2

/-- The whole fetch phase: paginate from offset 0 with empty accumulators. -/
def runFetch (server : Nat → Except String PageData) (fuel : Nat) :
    Option (Except String (List (Int × Int) × Int)) :=
  pagLoop server fuel 0 [] 0

/-- The stats built from the fetch-phase accumulators (source lines 267–274). -/
def aggStats (rgid : String) (agg : List (Int × Int) × Int) (t : ℚ) : MbRgStats :=
  ⟨rgid, agg.2, _mode_from_hist agg.1, agg.1, t⟩

/-- The `try` block around the remote fetch (source lines 234–280): any
exception raised inside it — during pagination or during the cache upsert —
is converted to `(None, "failed (<type name>)")`; on success the stats are
upserted and returned with the precomputed reason. -/
def doFetch (env : FetchEnv) (store : Store) (rgid : String) (reason : String)
    (fuel : Nat) : Option (Except String ((Option MbRgStats × String) × Store)) :=
  match runFetch env.server fuel with
  | none => none
  | some (.error e) => some (.ok ((none, "failed (" ++ e ++ ")"), store))
  | some (.ok agg) =>
      let stats := aggStats rgid agg env.fetchTime
      match env.writeFault with
      | some e => some (.ok ((none, "failed (" ++ e ++ ")"), store))
      | none => some (.ok ((some stats, reason), _write_cache store stats))

/-- `fetch_rg_stats` (source lines 192–283).  The result is `none` when the
pagination fuel ran out, `some (Except.error e)` when the call raised `e`
(cache faults outside the `try` block), and otherwise the returned
`(stats, status)` pair together with the table contents after the call. -/
def fetch_rg_stats (env : FetchEnv) (store : Store) (rgid : String)
    (max_age_days : ℚ) (fuel : Nat) :
    Option (Except String ((Option MbRgStats × String) × Store)) :=
  match env.ensureFault with
  | some e => some (.error e)
  | none =>
      match env.readFault with
      | some e => some (.error e)
      | none =>
          match List.lookup rgid store with
          | some row =>
              if max_age_days < 0 then
                some (.ok ((some (rowToStats rgid row), "cached"), store))
              else if max_age_days = 0 then
                doFetch env store rgid "fetched (forced)" fuel
              else if env.now - row.fetched_at ≤ max_age_days * 86400 then
                some (.ok ((some (rowToStats rgid row), "cached"), store))
              else
                doFetch env store rgid "fetched (cache expired)" fuel
          | none => doFetch env store rgid "fetched (not in cache)" fuel

/-- Whether the call reaches the remote-fetch phase instead of returning a
cached entry: the key is absent, the policy is exactly zero, or the entry is
stale under a positive policy. -/
def takesFetchPath (store : Store) (rgid : String) (max_age_days now : ℚ) : Bool :=
  match List.lookup rgid store with
  | none => true
  | some row =>
      if max_age_days < 0 then false
      else if max_age_days = 0 then true
      else decide (max_age_days * 86400 < now - row.fetched_at)

/-! ## Trace observations used by the transport claims -/

/-- Whether a response is an HTTP 503. -/
def is503 (r : Resp) : Bool :=
  match r with
  | .http s _ _ => s == 503
  | .net _ => false

/-- The backoff sleep durations of a run, in order. -/
def sleeps (tr : List Ev) : List ℚ :=
  tr.filterMap fun e => match e with | .backoffSleep d => some d | _ => none

/-- The update discipline of `_last_mb_request` as the code enforces it:
every `updateLast` event sits immediately after a `request` event, a request
answered by an HTTP response is immediately followed by its `updateLast`,
and a request aborted by a network-level exception is not. -/
def throttleDisc (server : Nat → Resp) : List Ev → Bool
  | [] => true
  | .request i :: .updateLast _ :: rest =>
      (match server i with | .http _ _ _ => true | .net _ => false)
        && throttleDisc server rest
  | .request i :: rest =>
      (match server i with | .net _ => true | .http _ _ _ => false)
        && throttleDisc server rest
  | .updateLast _ :: _ => false
  | _ :: rest => throttleDisc server rest

/-- The property claimed of the throttle state: every request attempt —
successful or failed alike — is immediately followed by an update of
`_last_mb_request`.  (Stated from the spec's words, to be compared with the
code's behaviour.) -/
def updatedAfterEveryAttempt : List Ev → Bool
  | [] => true
  | .request _ :: .updateLast _ :: rest => updatedAfterEveryAttempt rest
  | .request _ :: _ => false
  | _ :: rest => updatedAfterEveryAttempt rest

/-! ## Helper lemmas -/

theorem countAttempts_append (a b : List Ev) :
    countAttempts (a ++ b) = countAttempts a + countAttempts b := by
  simp [countAttempts, List.filter_append]

theorem failed_ne_cached (e : String) : "failed (" ++ e ++ ")" ≠ "cached" := by
  intro h
  have hd : ("failed (" ++ e ++ ")").data = "cached".data := by rw [h]
  simp [String.data_append] at hd

theorem sumValues_histIncr (h : List (Int × Int)) (k : Int) :
    sumValues (histIncr h k) = sumValues h + 1 := by
  induction h with
  | nil => simp [histIncr, sumValues]
  | cons kv rest ih =>
      obtain ⟨k', v⟩ := kv
      by_cases hk : k' = k
      · simp [histIncr, hk, sumValues]; ring
      · simp [histIncr, hk, sumValues] at *
        omega

theorem mode_mem (hist : List (Int × Int)) (k : Int)
    (hm : _mode_from_hist hist = some k) : k ∈ hist.map Prod.fst := by
  unfold _mode_from_hist at hm
  cases hsort : List.insertionSort modeLe hist with
  | nil => rw [hsort] at hm; exact absurd hm (by simp)
  | cons kv t =>
      rw [hsort] at hm
      have hk : kv.1 = k := by simpa using hm
      have hmem : kv ∈ List.insertionSort modeLe hist := by
        rw [hsort]; exact List.mem_cons_self kv t
      rw [List.mem_insertionSort] at hmem
      exact List.mem_map.mpr ⟨kv, hmem, hk⟩

theorem mode_is_max (hist : List (Int × Int)) (k : Int)
    (hm : _mode_from_hist hist = some k) :
    ∃ v, (k, v) ∈ hist ∧ ∀ p ∈ hist, p.2 < v ∨ (p.2 = v ∧ k ≤ p.1) := by
  unfold _mode_from_hist at hm
  cases hsort : List.insertionSort modeLe hist with
  | nil => rw [hsort] at hm; exact absurd hm (by simp)
  | cons kv t =>
      rw [hsort] at hm
      obtain ⟨k1, v⟩ := kv
      have hk : k1 = k := by simpa using hm
      subst hk
      have hmem : (k1, v) ∈ hist := by
        rw [← List.mem_insertionSort modeLe, hsort]
        exact List.mem_cons_self _ t
      refine ⟨v, hmem, fun p hp => ?_⟩
      have hp2 : p ∈ (k1, v) :: t := by
        rw [← hsort, List.mem_insertionSort]
        exact hp
      obtain ⟨pk, pv⟩ := p
      rcases List.mem_cons.mp hp2 with heq | hp3
      · injection heq with h1 h2
        subst h1; subst h2
        omega
      · have hle : modeLe (k1, v) (pk, pv) :=
          List.rel_of_sorted_cons (hsort ▸ List.sorted_insertionSort modeLe hist) _ hp3
        unfold modeLe at hle
        simp only at hle ⊢
        omega

theorem mode_none_iff (hist : List (Int × Int)) :
    _mode_from_hist hist = none ↔ hist = [] := by
  unfold _mode_from_hist
  cases hsort : List.insertionSort modeLe hist with
  | nil =>
      have hp := List.perm_insertionSort modeLe hist
      rw [hsort] at hp
      have hnil : hist = [] := List.perm_nil.mp hp.symm
      simp [hnil]
  | cons kv t =>
      have hne : hist ≠ [] := by
        intro h
        subst h
        simp [List.insertionSort] at hsort
      simp [hne]

theorem rtAux_all_some (ms : List Medium) :
    ∀ total, (∀ m ∈ ms, (mediumContrib m).isSome) →
      rtAux ms total = some (total + (ms.filterMap mediumContrib).sum) := by
  induction ms with
  | nil => intro total _; simp [rtAux]
  | cons m rest ih =>
      intro total hall
      have hm := hall m (List.mem_cons_self m rest)
      have hrest : ∀ m2 ∈ rest, (mediumContrib m2).isSome :=
        fun m2 hm2 => hall m2 (List.mem_cons_of_mem m hm2)
      cases htc : m.track_count with
      | some tc =>
          have hcon : mediumContrib m = some tc := by simp [mediumContrib, htc]
          simp only [rtAux, htc, ih (total + tc) hrest, List.filterMap_cons, hcon,
            List.sum_cons]
          congr 1
          ring
      | none =>
          cases htr : m.tracks with
          | some tracks =>
              have hcon : mediumContrib m = some (tracks.length : Int) := by
                simp [mediumContrib, htc, htr]
              simp only [rtAux, htc, htr, ih (total + tracks.length) hrest,
                List.filterMap_cons, hcon, List.sum_cons]
              congr 1
              ring
          | none =>
              simp [mediumContrib, htc, htr] at hm

theorem rtAux_bad (ms : List Medium) :
    ∀ total m, m ∈ ms → mediumContrib m = none → rtAux ms total = none := by
  induction ms with
  | nil => intro total m hm; exact absurd hm (by simp)
  | cons m0 rest ih =>
      intro total m hm hbad
      rcases List.mem_cons.mp hm with rfl | hm2
      · cases htc : m.track_count with
        | some tc => simp [mediumContrib, htc] at hbad
        | none =>
            cases htr : m.tracks with
            | some tracks => simp [mediumContrib, htc, htr] at hbad
            | none => simp only [rtAux, htc, htr]
      · cases htc : m0.track_count with
        | some tc =>
            simp only [rtAux, htc]
            exact ih (total + tc) m hm2 hbad
        | none =>
            cases htr : m0.tracks with
            | some tracks =>
                simp only [rtAux, htc, htr]
                exact ih (total + tracks.length) m hm2 hbad
            | none => simp only [rtAux, htc, htr]

theorem processReleases_inv (rels : List Release) :
    ∀ h c, sumValues h ≤ c →
      sumValues (processReleases (h, c) rels).1 ≤ (processReleases (h, c) rels).2 := by
  induction rels with
  | nil => intro h c hhc; simpa [processReleases] using hhc
  | cons rel rest ih =>
      intro h c hhc
      cases htc : _release_total_tracks rel with
      | none =>
          simp only [processReleases, htc]
          exact ih h (c + 1) (by omega)
      | some tc =>
          simp only [processReleases, htc]
          exact ih (histIncr h tc) (c + 1) (by rw [sumValues_histIncr]; omega)

theorem pagLoop_inv (server : Nat → Except String PageData) :
    ∀ fuel offset h c h2 c2, sumValues h ≤ c →
      pagLoop server fuel offset h c = some (.ok (h2, c2)) → sumValues h2 ≤ c2 := by
  intro fuel
  induction fuel with
  | zero => intro offset h c h2 c2 _ hp; simp [pagLoop] at hp
  | succ n ih =>
      intro offset h c h2 c2 hhc hp
      rw [pagLoop] at hp
      cases hs : server offset with
      | error e => rw [hs] at hp; simp at hp
      | ok data =>
          rw [hs] at hp
          simp only at hp
          have hacc := processReleases_inv (data.releases.getD []) h c hhc
          cases hrc : data.release_count with
          | none =>
              rw [hrc] at hp
              simp only [Option.some.injEq, Except.ok.injEq] at hp
              rw [hp] at hacc
              simpa using hacc
          | some total =>
              rw [hrc] at hp
              dsimp only at hp
              by_cases hoff : total ≤ ((offset + 100 : Nat) : Int)
              · rw [if_pos hoff] at hp
                simp only [Option.some.injEq, Except.ok.injEq] at hp
                rw [hp] at hacc
                simpa using hacc
              · rw [if_neg hoff] at hp
                exact ih (offset + 100) _ _ h2 c2 hacc hp

theorem doFetch_ok (env : FetchEnv) (store : Store) (rgid reason : String)
    (fuel : Nat) (out : (Option MbRgStats × String) × Store)
    (hd : doFetch env store rgid reason fuel = some (.ok out)) :
    (∃ e, runFetch env.server fuel = some (.error e) ∧
        out = ((none, "failed (" ++ e ++ ")"), store)) ∨
    (∃ agg e, runFetch env.server fuel = some (.ok agg) ∧ env.writeFault = some e ∧
        out = ((none, "failed (" ++ e ++ ")"), store)) ∨
    (∃ agg, runFetch env.server fuel = some (.ok agg) ∧ env.writeFault = none ∧
        out = ((some (aggStats rgid agg env.fetchTime), reason),
          _write_cache store (aggStats rgid agg env.fetchTime))) := by
  unfold doFetch at hd
  cases hr : runFetch env.server fuel with
  | none => rw [hr] at hd; simp at hd
  | some res =>
      rw [hr] at hd
      cases res with
      | error e =>
          left
          refine ⟨e, rfl, ?_⟩
          simpa using hd.symm
      | ok agg =>
          cases hw : env.writeFault with
          | some e =>
              right; left
              refine ⟨agg, e, rfl, rfl, ?_⟩
              rw [hw] at hd
              simpa using hd.symm
          | none =>
              right; right
              refine ⟨agg, rfl, rfl, ?_⟩
              rw [hw] at hd
              simpa using hd.symm

theorem lookup_upsertRow (store : Store) (rgid : String) (row : CacheRow) :
    List.lookup rgid (upsertRow store rgid row) = some row := by
  induction store with
  | nil => simp [upsertRow, List.lookup]
  | cons kr rest ih =>
      obtain ⟨k, r⟩ := kr
      by_cases hk : k = rgid
      · simp [upsertRow, hk, List.lookup]
      · have hbeq : (rgid == k) = false := by
          simp only [beq_eq_false_iff_ne, ne_eq]
          exact fun hkk => hk hkk.symm
        simp only [upsertRow, if_neg hk, List.lookup, hbeq]
        exact ih

theorem upsertRow_idem (store : Store) (rgid : String) (row : CacheRow) :
    upsertRow (upsertRow store rgid row) rgid row = upsertRow store rgid row := by
  induction store with
  | nil => simp [upsertRow]
  | cons kr rest ih =>
      obtain ⟨k, r⟩ := kr
      by_cases hk : k = rgid
      · simp [upsertRow, hk]
      · simp [upsertRow, hk, ih]

theorem hist_roundtrip (h : List (Int × Int)) :
    (h.map (fun kv => (intToStr kv.1, kv.2))).map (fun kv => (strToInt kv.1, kv.2)) = h := by
  rw [List.map_map]
  have : ∀ kv ∈ h, ((fun kv => (strToInt kv.1, kv.2)) ∘ fun kv => (intToStr kv.1, kv.2)) kv
      = id kv := by
    intro kv _
    simp [Function.comp, strToInt_intToStr]
  rw [List.map_congr_left this, List.map_id]

/-! ## Claims -/

/-- Claim C10: for every stats value `s`, writing `s` with the upsert
(`_write_cache`) and then reading the row for `s.rgid` as `fetch_rg_stats`
does reconstructs a stats value equal to `s` — in particular the
integer-keyed histogram survives serialization to a string-keyed JSON object
and deserialization back to integer keys — and upserting the same value
twice leaves the store in the same observable state as upserting it once. -/
theorem c10_cache_roundtrip (store : Store) (s : MbRgStats) :
    List.lookup s.rgid (_write_cache store s) = some (statsToRow s) ∧
    rowToStats s.rgid (statsToRow s) = s ∧
    _write_cache (_write_cache store s) s = _write_cache store s := by
  refine ⟨lookup_upsertRow store s.rgid (statsToRow s), ?_, ?_⟩
  · cases s
    simp only [rowToStats, statsToRow, hist_roundtrip]
  · unfold _write_cache
    exact upsertRow_idem store s.rgid (statsToRow s)

/-- Claim C6: for every histogram, `_mode_from_hist` returns a key of
maximal frequency, ties broken by the smallest key, and is absent exactly on
the empty histogram. -/
theorem c6_mode_of_histogram (hist : List (Int × Int)) :
    (_mode_from_hist hist = none ↔ hist = []) ∧
    (∀ k, _mode_from_hist hist = some k →
      ∃ v, (k, v) ∈ hist ∧ ∀ p ∈ hist, p.2 < v ∨ (p.2 = v ∧ k ≤ p.1)) :=
  ⟨mode_none_iff hist, fun k hk => mode_is_max hist k hk⟩

theorem c6_mode_of_histogram_witness :
    _mode_from_hist [((12 : Int), (2 : Int)), (10, 2), (7, 1)] = some 10 ∧
    (∃ v, ((10 : Int), v) ∈ [((12 : Int), (2 : Int)), (10, 2), (7, 1)] ∧
      ∀ p ∈ [((12 : Int), (2 : Int)), (10, 2), (7, 1)],
        p.2 < v ∨ (p.2 = v ∧ 10 ≤ p.1)) :=
  ⟨by decide, (c6_mode_of_histogram [(12, 2), (10, 2), (7, 1)]).2 10 (by decide)⟩

/-- Claim C5: a release with media that all report a usable count
contributes the sum of its media contributions (`track-count`, or the length
of the `tracks` list as fallback); a release with no media, or with some
medium offering neither value, is indeterminate (`none`). -/
theorem c5_release_track_extraction (r : Release) :
    (∀ ms, r.media = some ms → ms ≠ [] → (∀ m ∈ ms, (mediumContrib m).isSome) →
      _release_total_tracks r = some ((ms.filterMap mediumContrib).sum)) ∧
    ((r.media = none ∨ r.media = some []) → _release_total_tracks r = none) ∧
    (∀ ms m, r.media = some ms → m ∈ ms → mediumContrib m = none →
      _release_total_tracks r = none) := by
  refine ⟨?_, ?_, ?_⟩
  · intro ms hms hne hall
    cases ms with
    | nil => exact absurd rfl hne
    | cons m rest =>
        simp only [_release_total_tracks, hms]
        rw [rtAux_all_some (m :: rest) 0 hall]
        simp
  · intro hcase
    rcases hcase with hm | hm <;> simp [_release_total_tracks, hm]
  · intro ms m hms hm hbad
    cases ms with
    | nil => exact absurd hm (by simp)
    | cons m0 rest =>
        simp only [_release_total_tracks, hms]
        exact rtAux_bad (m0 :: rest) 0 m hm hbad

theorem c5_release_track_extraction_witness :
    _release_total_tracks ⟨some [⟨some 3, none⟩, ⟨some 4, none⟩, ⟨none, some [()]⟩]⟩
      = some 8 := by
  have h := (c5_release_track_extraction
      ⟨some [⟨some 3, none⟩, ⟨some 4, none⟩, ⟨none, some [()]⟩]⟩).1
    [⟨some 3, none⟩, ⟨some 4, none⟩, ⟨none, some [()]⟩] rfl (by decide) (by decide)
  rw [h]
  decide

theorem fetch_reaches_doFetch (env : FetchEnv) (store : Store) (rgid : String)
    (days : ℚ) (fuel : Nat) (out : (Option MbRgStats × String) × Store)
    (hf : fetch_rg_stats env store rgid days fuel = some (.ok out))
    (hnc : out.1.2 ≠ "cached") :
    ∃ reason, doFetch env store rgid reason fuel = some (.ok out) := by
  unfold fetch_rg_stats at hf
  cases he : env.ensureFault with
  | some e => rw [he] at hf; simp at hf
  | none =>
  rw [he] at hf
  cases hr : env.readFault with
  | some e => rw [hr] at hf; simp at hf
  | none =>
  rw [hr] at hf
  cases hl : List.lookup rgid store with
  | none =>
      rw [hl] at hf
      exact ⟨"fetched (not in cache)", hf⟩
  | some row =>
      rw [hl] at hf
      dsimp only at hf
      by_cases h1 : days < 0
      · rw [if_pos h1] at hf
        simp only [Option.some.injEq, Except.ok.injEq] at hf
        exact absurd (by rw [← hf]) hnc
      · rw [if_neg h1] at hf
        by_cases h2 : days = 0
        · rw [if_pos h2] at hf
          exact ⟨"fetched (forced)", hf⟩
        · rw [if_neg h2] at hf
          by_cases h3 : env.now - row.fetched_at ≤ days * 86400
          · rw [if_pos h3] at hf
            simp only [Option.some.injEq, Except.ok.injEq] at hf
            exact absurd (by rw [← hf]) hnc
          · rw [if_neg h3] at hf
            exact ⟨"fetched (cache expired)", hf⟩

/-- Claim C9: every stats value produced by a successful remote fetch (any
returned status other than `"cached"`) satisfies both invariants: the sum of
the histogram frequencies is at most `release_count`, and the mode, when
present, is a key of the histogram. -/
theorem c9_stats_invariants (env : FetchEnv) (store : Store) (rgid : String)
    (days : ℚ) (fuel : Nat) (stats : MbRgStats) (status : String) (st : Store)
    (hf : fetch_rg_stats env store rgid days fuel =
      some (.ok ((some stats, status), st)))
    (hnc : status ≠ "cached") :
    sumValues stats.histogram ≤ stats.release_count ∧
    (∀ k, stats.mode_track_count = some k → k ∈ stats.histogram.map Prod.fst) := by
  obtain ⟨reason, hd⟩ := fetch_reaches_doFetch env store rgid days fuel
    ((some stats, status), st) hf hnc
  rcases doFetch_ok env store rgid reason fuel _ hd with
    ⟨e, _, hout⟩ | ⟨agg, e, _, _, hout⟩ | ⟨agg, hrun, _, hout⟩
  · simp at hout
  · simp at hout
  · have hstats : stats = aggStats rgid agg env.fetchTime := by
      have := congrArg (fun p => p.1.1) hout
      simpa using this
    obtain ⟨hist2, count2⟩ := agg
    have hsum : sumValues hist2 ≤ count2 := by
      unfold runFetch at hrun
      exact pagLoop_inv env.server fuel 0 [] 0 hist2 count2 (by simp [sumValues]) hrun
    constructor
    · rw [hstats]
      exact hsum
    · intro k hk
      rw [hstats] at hk ⊢
      exact mode_mem hist2 k (by simpa [aggStats] using hk)

theorem c9_stats_invariants_witness :
    (fetch_rg_stats
        ⟨fun _ => .ok ⟨some [⟨some [⟨some 12, none⟩]⟩], some 1⟩, none, none, none, 100, 100⟩
        [] "rg-A" 30 5 =
      some (.ok ((some ⟨"rg-A", 1, some 12, [(12, 1)], 100⟩, "fetched (not in cache)"),
        [("rg-A", statsToRow ⟨"rg-A", 1, some 12, [(12, 1)], 100⟩)]))) ∧
    sumValues [((12 : Int), (1 : Int))] ≤ 1 ∧
    (∀ k, (some 12 : Option Int) = some k → k ∈ [((12 : Int), (1 : Int))].map Prod.fst) := by
  have heval : fetch_rg_stats
      ⟨fun _ => .ok ⟨some [⟨some [⟨some 12, none⟩]⟩], some 1⟩, none, none, none, 100, 100⟩
      [] "rg-A" 30 5 =
      some (.ok ((some ⟨"rg-A", 1, some 12, [(12, 1)], 100⟩, "fetched (not in cache)"),
        [("rg-A", statsToRow ⟨"rg-A", 1, some 12, [(12, 1)], 100⟩)])) := by
    norm_num [fetch_rg_stats, doFetch, runFetch, pagLoop, processReleases,
      _release_total_tracks, rtAux, histIncr, _mode_from_hist, aggStats, _write_cache,
      upsertRow, List.insertionSort, List.orderedInsert]
  refine ⟨heval, ?_⟩
  have h := c9_stats_invariants
    ⟨fun _ => .ok ⟨some [⟨some [⟨some 12, none⟩]⟩], some 1⟩, none, none, none, 100, 100⟩
    [] "rg-A" 30 5 ⟨"rg-A", 1, some 12, [(12, 1)], 100⟩ "fetched (not in cache)"
    [("rg-A", statsToRow ⟨"rg-A", 1, some 12, [(12, 1)], 100⟩)] heval (by decide)
  exact h

theorem fetch_path_doFetch (env : FetchEnv) (store : Store) (rgid : String)
    (days : ℚ) (fuel : Nat)
    (X : Option (Except String ((Option MbRgStats × String) × Store)))
    (hens : env.ensureFault = none) (hread : env.readFault = none)
    (hpath : takesFetchPath store rgid days env.now = true)
    (hdo : ∀ reason, doFetch env store rgid reason fuel = X) :
    fetch_rg_stats env store rgid days fuel = X := by
  unfold fetch_rg_stats
  rw [hens, hread]
  unfold takesFetchPath at hpath
  cases hl : List.lookup rgid store with
  | none => exact hdo _
  | some row =>
      rw [hl] at hpath
      dsimp only at hpath ⊢
      by_cases h1 : days < 0
      · rw [if_pos h1] at hpath
        simp at hpath
      · rw [if_neg h1] at hpath ⊢
        by_cases h2 : days = 0
        · rw [if_pos h2]
          exact hdo _
        · rw [if_neg h2] at hpath ⊢
          have hlt : days * 86400 < env.now - row.fetched_at := of_decide_eq_true hpath
          rw [if_neg (not_le.mpr hlt)]
          exact hdo _

/-- Claim C2: every fault raised during the remote fetch phase is caught:
when the pagination aborts with exception `e`, `fetch_rg_stats` returns
`(absent, "failed (<e>)")` instead of propagating, leaving the store
untouched. -/
theorem c2_fetch_fault_not_propagated (env : FetchEnv) (store : Store)
    (rgid : String) (days : ℚ) (fuel : Nat) (e : String)
    (hens : env.ensureFault = none) (hread : env.readFault = none)
    (hpath : takesFetchPath store rgid days env.now = true)
    (hrun : runFetch env.server fuel = some (.error e)) :
    fetch_rg_stats env store rgid days fuel =
      some (.ok ((none, "failed (" ++ e ++ ")"), store)) := by
  refine fetch_path_doFetch env store rgid days fuel _ hens hread hpath ?_
  intro reason
  unfold doFetch
  rw [hrun]

theorem c2_fetch_fault_not_propagated_witness :
    fetch_rg_stats ⟨fun _ => .error "HTTPError", none, none, none, 100, 100⟩
      [] "rg" 30 1 = some (.ok ((none, "failed (HTTPError)"), [])) :=
  c2_fetch_fault_not_propagated
    ⟨fun _ => .error "HTTPError", none, none, none, 100, 100⟩
    [] "rg" 30 1 "HTTPError" rfl rfl rfl rfl

/-- Claim C8 (amended): faults of the durable cache store raised by the
schema creation or by the initial read propagate to the caller; but a fault
raised by the upsert write happens inside the fetch `try` block and is
caught, yielding a `"failed (<kind>)"` status instead of propagating. -/
theorem c8_cache_fault_handling (env : FetchEnv) (store : Store) (rgid : String)
    (days : ℚ) (fuel : Nat) :
    (∀ e, env.ensureFault = some e →
      fetch_rg_stats env store rgid days fuel = some (.error e)) ∧
    (env.ensureFault = none → ∀ e, env.readFault = some e →
      fetch_rg_stats env store rgid days fuel = some (.error e)) ∧
    (env.ensureFault = none → env.readFault = none →
      takesFetchPath store rgid days env.now = true →
      ∀ e agg, env.writeFault = some e → runFetch env.server fuel = some (.ok agg) →
      fetch_rg_stats env store rgid days fuel =
        some (.ok ((none, "failed (" ++ e ++ ")"), store))) := by
  refine ⟨?_, ?_, ?_⟩
  · intro e he
    unfold fetch_rg_stats
    rw [he]
  · intro hens e he
    unfold fetch_rg_stats
    rw [hens, he]
  · intro hens hread hpath e agg hw hrun
    refine fetch_path_doFetch env store rgid days fuel _ hens hread hpath ?_
    intro reason
    unfold doFetch
    rw [hrun, hw]

theorem c8_cache_fault_handling_witness :
    fetch_rg_stats ⟨fun _ => .ok ⟨some [], some 0⟩, none, some "OperationalError", none, 100, 100⟩
      [] "rg" 30 1 = some (.error "OperationalError") :=
  (c8_cache_fault_handling
    ⟨fun _ => .ok ⟨some [], some 0⟩, none, some "OperationalError", none, 100, 100⟩
    [] "rg" 30 1).2.1 rfl "OperationalError" rfl

theorem c8_cache_fault_handling_counterexample :
    fetch_rg_stats ⟨fun _ => .ok ⟨some [], some 0⟩, none, none, some "OperationalError", 100, 100⟩
      [] "rg" 30 1 = some (.ok ((none, "failed (OperationalError)"), [])) := by
  norm_num [fetch_rg_stats, doFetch, runFetch, pagLoop, processReleases]
  decide

/-- Claim C1: freshness law of the orchestrator.  With a cached row present,
a negative policy or a positive policy with age within bound returns the
cached stats with status `"cached"`; a zero policy never returns the cached
entry and a successful fetch reports `"fetched (forced)"`; a stale entry
under a positive policy reports `"fetched (cache expired)"` on success; an
absent entry reports `"fetched (not in cache)"` on success. -/
theorem c1_freshness_law (env : FetchEnv) (store : Store) (rgid : String)
    (days : ℚ) (fuel : Nat)
    (hens : env.ensureFault = none) (hread : env.readFault = none) :
    (∀ row, List.lookup rgid store = some row →
      ((days < 0 → fetch_rg_stats env store rgid days fuel =
          some (.ok ((some (rowToStats rgid row), "cached"), store))) ∧
       (0 < days → env.now - row.fetched_at ≤ days * 86400 →
          fetch_rg_stats env store rgid days fuel =
          some (.ok ((some (rowToStats rgid row), "cached"), store))) ∧
       (days = 0 → ∀ out, fetch_rg_stats env store rgid days fuel = some (.ok out) →
          out.1.2 ≠ "cached") ∧
       (days = 0 → env.writeFault = none →
          ∀ agg, runFetch env.server fuel = some (.ok agg) →
          fetch_rg_stats env store rgid days fuel =
          some (.ok ((some (aggStats rgid agg env.fetchTime), "fetched (forced)"),
            _write_cache store (aggStats rgid agg env.fetchTime)))) ∧
       (0 < days → days * 86400 < env.now - row.fetched_at → env.writeFault = none →
          ∀ agg, runFetch env.server fuel = some (.ok agg) →
          fetch_rg_stats env store rgid days fuel =
          some (.ok ((some (aggStats rgid agg env.fetchTime), "fetched (cache expired)"),
            _write_cache store (aggStats rgid agg env.fetchTime))))))
    ∧ (List.lookup rgid store = none → env.writeFault = none →
      ∀ agg, runFetch env.server fuel = some (.ok agg) →
      fetch_rg_stats env store rgid days fuel =
      some (.ok ((some (aggStats rgid agg env.fetchTime), "fetched (not in cache)"),
        _write_cache store (aggStats rgid agg env.fetchTime)))) := by
  have hdoOk : ∀ reason agg, env.writeFault = none →
      runFetch env.server fuel = some (.ok agg) →
      doFetch env store rgid reason fuel =
      some (.ok ((some (aggStats rgid agg env.fetchTime), reason),
        _write_cache store (aggStats rgid agg env.fetchTime))) := by
    intro reason agg hw hrun
    unfold doFetch
    rw [hrun, hw]
  constructor
  · intro row hrow
    refine ⟨?_, ?_, ?_, ?_, ?_⟩
    · intro h1
      unfold fetch_rg_stats
      rw [hens, hread, hrow]
      dsimp only
      rw [if_pos h1]
    · intro h1 h2
      unfold fetch_rg_stats
      rw [hens, hread, hrow]
      dsimp only
      rw [if_neg (by linarith), if_neg (by linarith), if_pos h2]
    · intro h0 out hout
      unfold fetch_rg_stats at hout
      rw [hens, hread, hrow] at hout
      dsimp only at hout
      rw [if_neg (by rw [h0]; exact lt_irrefl 0), if_pos h0] at hout
      rcases doFetch_ok env store rgid "fetched (forced)" fuel out hout with
        ⟨e, _, hval⟩ | ⟨agg, e, _, _, hval⟩ | ⟨agg, _, _, hval⟩
      · rw [hval]
        exact failed_ne_cached e
      · rw [hval]
        exact failed_ne_cached e
      · rw [hval]
        show "fetched (forced)" ≠ "cached"
        decide
    · intro h0 hw agg hrun
      unfold fetch_rg_stats
      rw [hens, hread, hrow]
      dsimp only
      rw [if_neg (by rw [h0]; exact lt_irrefl 0), if_pos h0]
      exact hdoOk _ agg hw hrun
    · intro h1 hstale hw agg hrun
      unfold fetch_rg_stats
      rw [hens, hread, hrow]
      dsimp only
      rw [if_neg (by linarith), if_neg (by linarith), if_neg (not_le.mpr hstale)]
      exact hdoOk _ agg hw hrun
  · intro hnone hw agg hrun
    unfold fetch_rg_stats
    rw [hens, hread, hnone]
    exact hdoOk _ agg hw hrun

theorem c1_freshness_law_witness :
    List.lookup "rg" [("rg", (⟨50, 1, some 12, [("12", 1)]⟩ : CacheRow))] =
      some ⟨50, 1, some 12, [("12", 1)]⟩ ∧
    fetch_rg_stats ⟨fun _ => .error "HTTPError", none, none, none, 100, 100⟩
      [("rg", ⟨50, 1, some 12, [("12", 1)]⟩)] "rg" (-1) 1 =
    some (.ok ((some (rowToStats "rg" ⟨50, 1, some 12, [("12", 1)]⟩), "cached"),
      [("rg", ⟨50, 1, some 12, [("12", 1)]⟩)])) :=
  ⟨rfl,
    ((c1_freshness_law ⟨fun _ => .error "HTTPError", none, none, none, 100, 100⟩
        [("rg", ⟨50, 1, some 12, [("12", 1)]⟩)] "rg" (-1) 1 rfl rfl).1
      ⟨50, 1, some 12, [("12", 1)]⟩ rfl).1 (by norm_num)⟩

theorem mbGetAux_net_step (env : TransportEnv) (mr fuel attempt tIdx : Nat)
    (last : ℚ) (lastExc : Option String) (name : String)
    (henv : env.server attempt = .net name) :
    mbGetAux env mr (fuel + 1) attempt tIdx last lastExc =
      (let throttleEvs : List Ev :=
        if env.clock tIdx - last < 1 then
          [.throttleSleep (1 - (env.clock tIdx - last))] else []
       if attempt < mr then
         let s := backoff attempt + env.jitter attempt
         let rec2 := mbGetAux env mr fuel (attempt + 1) (tIdx + 1) last (some name)
         (rec2.1, throttleEvs ++ [.request attempt, .backoffSleep s] ++ rec2.2)
       else (.error name, throttleEvs ++ [.request attempt])) := by
  simp only [mbGetAux, henv]

theorem mbGetAux_http_step (env : TransportEnv) (mr fuel attempt tIdx : Nat)
    (last : ℚ) (lastExc : Option String) (status : Nat) (ra : Option String)
    (body : Option PageData)
    (henv : env.server attempt = .http status ra body) :
    mbGetAux env mr (fuel + 1) attempt tIdx last lastExc =
      (let throttleEvs : List Ev :=
        if env.clock tIdx - last < 1 then
          [.throttleSleep (1 - (env.clock tIdx - last))] else []
       let t2 := env.clock (tIdx + 1)
       let base := throttleEvs ++ [.request attempt, .updateLast t2]
       if retryStatus status && decide (attempt < mr) then
         let s := retrySleep ra attempt (env.jitter attempt)
         let rec2 := mbGetAux env mr fuel (attempt + 1) (tIdx + 2) t2 lastExc
         (rec2.1, base ++ [.backoffSleep s] ++ rec2.2)
       else
         if 400 ≤ status ∧ status < 600 then (.error "HTTPError", base)
         else
           match body with
           | some d => (.ok d, base)
           | none => (.error "JSONDecodeError", base)) := by
  simp only [mbGetAux, henv]

theorem countAttempts_throttleEvs (c : Prop) [Decidable c] (d : ℚ) :
    countAttempts (if c then [Ev.throttleSleep d] else []) = 0 := by
  split <;> rfl

theorem countAttempts_pair (a : Nat) (t : ℚ) :
    countAttempts [Ev.request a, Ev.updateLast t] = 1 := rfl

theorem countAttempts_req (a : Nat) : countAttempts [Ev.request a] = 1 := rfl

theorem countAttempts_backoff (s : ℚ) : countAttempts [Ev.backoffSleep s] = 0 := rfl

theorem mbGetAux_503 (env : TransportEnv)
    (h503 : ∀ i, is503 (env.server i) = true) :
    ∀ fuel attempt tIdx last lastExc, attempt + fuel = MAX_RETRIES + 1 →
      countAttempts (mbGetAux env MAX_RETRIES fuel attempt tIdx last lastExc).2 = fuel ∧
      isErr (mbGetAux env MAX_RETRIES fuel attempt tIdx last lastExc).1 = true := by
  intro fuel
  induction fuel with
  | zero =>
      intro attempt tIdx last lastExc _
      exact ⟨rfl, rfl⟩
  | succ n ih =>
      intro attempt tIdx last lastExc hsum
      have hs := h503 attempt
      cases henv : env.server attempt with
      | net name => rw [henv] at hs; simp [is503] at hs
      | http status ra body =>
          rw [henv] at hs
          have hstat : status = 503 := by simpa [is503] using hs
          subst hstat
          rw [mbGetAux_http_step env MAX_RETRIES n attempt tIdx last lastExc 503 ra body henv]
          by_cases hlt : attempt < MAX_RETRIES
          · have hcond : (retryStatus 503 && decide (attempt < MAX_RETRIES)) = true := by
              simp [retryStatus, hlt]
            simp only [hcond, if_true]
            have hih := ih (attempt + 1) (tIdx + 2) (env.clock (tIdx + 1)) lastExc
              (by omega)
            constructor
            · simp only [countAttempts_append, countAttempts_throttleEvs,
                countAttempts_pair, countAttempts_backoff, hih.1]
              omega
            · exact hih.2
          · have hcond : (retryStatus 503 && decide (attempt < MAX_RETRIES)) = false := by
              simp [retryStatus, hlt]
            have hn : n = 0 := by
              unfold MAX_RETRIES at hsum hlt
              omega
            subst hn
            simp only [hcond, Bool.false_eq_true, if_false,
              if_pos (by omega : 400 ≤ 503 ∧ 503 < 600)]
            constructor
            · simp only [countAttempts_append, countAttempts_throttleEvs,
                countAttempts_pair]
            · rfl

/-- Claim C3 (amended): against a server answering 503 to every request,
`_mb_get` makes exactly `MAX_RETRIES + 1 = 6` attempts and then fails;
retryable signals are retried until exhaustion, while any other non-2xx
status fails immediately on the first attempt without retrying; the
exponential backoff (ignoring jitter) is non-decreasing in the attempt
number and capped at 30 seconds. -/
theorem c3_retry_bound :
    (∀ (env : TransportEnv) (last0 : ℚ), (∀ i, is503 (env.server i) = true) →
      countAttempts (_mb_get env last0).2 = MAX_RETRIES + 1 ∧
      isErr (_mb_get env last0).1 = true) ∧
    (∀ a, backoff a ≤ backoff (a + 1) ∧ backoff a ≤ 30) ∧
    (∀ (env : TransportEnv) (last0 : ℚ) (status : Nat) (ra : Option String)
      (body : Option PageData),
      env.server 0 = .http status ra body → retryStatus status = false →
      400 ≤ status → status < 600 →
      countAttempts (_mb_get env last0).2 = 1 ∧ isErr (_mb_get env last0).1 = true) := by
  refine ⟨?_, ?_, ?_⟩
  · intro env last0 h503
    exact mbGetAux_503 env h503 (MAX_RETRIES + 1) 0 0 last0 none rfl
  · intro a
    constructor
    · exact min_le_min (le_refl 30)
        (pow_le_pow_right₀ (by norm_num : (1 : ℚ) ≤ 2) (Nat.le_succ a))
    · exact min_le_left 30 _
  · intro env last0 status ra body henv hr h4 h6
    unfold _mb_get
    rw [show MAX_RETRIES + 1 = 5 + 1 from rfl,
      mbGetAux_http_step env MAX_RETRIES 5 0 0 last0 none status ra body henv]
    have hcond : (retryStatus status && decide (0 < MAX_RETRIES)) = false := by
      simp [hr]
    simp only [hcond, Bool.false_eq_true, if_false]
    rw [if_pos (⟨h4, h6⟩ : 400 ≤ status ∧ status < 600)]
    constructor
    · simp only [countAttempts_append, countAttempts_throttleEvs, countAttempts_pair]
    · rfl

theorem c3_retry_bound_witness :
    countAttempts (_mb_get
      ⟨fun _ => .http 503 none none, fun _ => 0, fun i => 1000 * (i + 1)⟩ 0).2 =
        MAX_RETRIES + 1 ∧
    isErr (_mb_get
      ⟨fun _ => .http 503 none none, fun _ => 0, fun i => 1000 * (i + 1)⟩ 0).1 = true :=
  c3_retry_bound.1 ⟨fun _ => .http 503 none none, fun _ => 0, fun i => 1000 * (i + 1)⟩
    0 (fun _ => rfl)

theorem c3_retry_bound_counterexample :
    countAttempts (_mb_get
      ⟨fun _ => .http 404 none none, fun _ => 0, fun i => 1000 * (i + 1)⟩ 0).2 = 1 ∧
    isErr (_mb_get
      ⟨fun _ => .http 404 none none, fun _ => 0, fun i => 1000 * (i + 1)⟩ 0).1 = true ∧
    MAX_RETRIES + 1 = 6 := by
  refine ⟨?_, ?_, rfl⟩ <;>
    norm_num [_mb_get, mbGetAux, MAX_RETRIES, retryStatus, countAttempts, isErr,
      List.filter]

theorem sleeps_append (a b : List Ev) : sleeps (a ++ b) = sleeps a ++ sleeps b := by
  simp [sleeps, List.filterMap_append]

theorem sleeps_throttleEvs (c : Prop) [Decidable c] (d : ℚ) :
    sleeps (if c then [Ev.throttleSleep d] else []) = [] := by
  split <;> rfl

/-- Claim C4 (amended): for a retryable server response, a `Retry-After`
header parseable as a number is used verbatim as the sleep duration; a
present but unparseable header falls back to a sleep of `1.0` second (not to
the exponential backoff); an absent header yields `min(30, 2^attempt)` plus
the jitter draw.  The first backoff sleep of a run whose first response is a
retryable status is exactly this selected duration. -/
theorem c4_backoff_selection :
    (∀ ra attempt j x, pyFloat ra = some x → retrySleep (some ra) attempt j = x) ∧
    (∀ attempt j, retrySleep none attempt j = backoff attempt + j) ∧
    (∀ ra attempt j, pyFloat ra = none → retrySleep (some ra) attempt j = 1) ∧
    (∀ (env : TransportEnv) (last0 : ℚ) (status : Nat) (ra : Option String)
      (body : Option PageData),
      env.server 0 = .http status ra body → retryStatus status = true →
      (sleeps (_mb_get env last0).2).head? = some (retrySleep ra 0 (env.jitter 0))) := by
  refine ⟨?_, ?_, ?_, ?_⟩
  · intro ra attempt j x hx
    simp only [retrySleep]
    rw [hx]
  · intro attempt j
    rfl
  · intro ra attempt j hx
    simp only [retrySleep]
    rw [hx]
  · intro env last0 status ra body henv hret
    unfold _mb_get
    rw [show MAX_RETRIES + 1 = 5 + 1 from rfl,
      mbGetAux_http_step env MAX_RETRIES 5 0 0 last0 none status ra body henv]
    have hcond : (retryStatus status && decide (0 < MAX_RETRIES)) = true := by
      simp [hret, MAX_RETRIES]
    simp only [hcond, if_true]
    rw [show (if env.clock 0 - last0 < 1 then
          [Ev.throttleSleep (1 - (env.clock 0 - last0))] else [])
          ++ [Ev.request 0, Ev.updateLast (env.clock (0 + 1))]
          ++ [Ev.backoffSleep (retrySleep ra 0 (env.jitter 0))]
          ++ (mbGetAux env MAX_RETRIES 5 (0 + 1) (0 + 2) (env.clock (0 + 1)) none).2
        = (if env.clock 0 - last0 < 1 then
          [Ev.throttleSleep (1 - (env.clock 0 - last0))] else [])
          ++ ([Ev.request 0, Ev.updateLast (env.clock (0 + 1))]
          ++ ([Ev.backoffSleep (retrySleep ra 0 (env.jitter 0))]
          ++ (mbGetAux env MAX_RETRIES 5 (0 + 1) (0 + 2) (env.clock (0 + 1)) none).2))
        from by simp [List.append_assoc]]
    rw [sleeps_append, sleeps_throttleEvs]
    rfl

theorem c4_backoff_selection_witness :
    retrySleep (some "7") 0 0 = 7 ∧ retrySleep none 3 (1/4) = backoff 3 + 1/4 := by
  constructor
  · refine c4_backoff_selection.1 "7" 0 0 7 ?_
    have h7 : pyFloat "7" = some (1 * ((7 : Nat) : ℚ)) := rfl
    rw [h7]
    norm_num
  · exact c4_backoff_selection.2.1 3 (1/4)

theorem c4_backoff_selection_counterexample :
    retrySleep (some "abc") 1 (1/4) = 1 ∧ backoff 1 = 2 := by
  constructor
  · have habc : pyFloat "abc" = none := rfl
    simp only [retrySleep]
    rw [habc]
  · norm_num [backoff]

theorem throttleDisc_throttleEvs (server : Nat → Resp) (c : Prop) [Decidable c]
    (d : ℚ) (l : List Ev) :
    throttleDisc server ((if c then [Ev.throttleSleep d] else []) ++ l) =
      throttleDisc server l := by
  split <;> rfl

theorem disc_req_update (server : Nat → Resp) (i : Nat) (t : ℚ) (l : List Ev) :
    throttleDisc server (.request i :: .updateLast t :: l) =
      ((match server i with | .http _ _ _ => true | .net _ => false)
        && throttleDisc server l) := rfl

theorem disc_req_backoff (server : Nat → Resp) (i : Nat) (d : ℚ) (l : List Ev) :
    throttleDisc server (.request i :: .backoffSleep d :: l) =
      ((match server i with | .net _ => true | .http _ _ _ => false)
        && throttleDisc server (.backoffSleep d :: l)) := rfl

theorem disc_req_nil (server : Nat → Resp) (i : Nat) :
    throttleDisc server [.request i] =
      ((match server i with | .net _ => true | .http _ _ _ => false) && true) := rfl

theorem disc_backoff_cons (server : Nat → Resp) (d : ℚ) (l : List Ev) :
    throttleDisc server (.backoffSleep d :: l) = throttleDisc server l := rfl

theorem mbGetAux_disc (env : TransportEnv) :
    ∀ fuel attempt tIdx last lastExc,
      throttleDisc env.server
        (mbGetAux env MAX_RETRIES fuel attempt tIdx last lastExc).2 = true := by
  intro fuel
  induction fuel with
  | zero => intro attempt tIdx last lastExc; rfl
  | succ n ih =>
      intro attempt tIdx last lastExc
      cases henv : env.server attempt with
      | net name =>
          rw [mbGetAux_net_step env MAX_RETRIES n attempt tIdx last lastExc name henv]
          dsimp only
          by_cases hlt : attempt < MAX_RETRIES
          · rw [if_pos hlt]
            dsimp only
            rw [List.append_assoc, throttleDisc_throttleEvs]
            rw [show ([Ev.request attempt,
                Ev.backoffSleep (backoff attempt + env.jitter attempt)] ++
                (mbGetAux env MAX_RETRIES n (attempt + 1) (tIdx + 1) last (some name)).2)
              = Ev.request attempt :: Ev.backoffSleep (backoff attempt + env.jitter attempt)
                :: (mbGetAux env MAX_RETRIES n (attempt + 1) (tIdx + 1) last (some name)).2
              from rfl]
            rw [disc_req_backoff, henv, disc_backoff_cons]
            simp only [Bool.true_and]
            exact ih (attempt + 1) (tIdx + 1) last (some name)
          · rw [if_neg hlt]
            dsimp only
            rw [show ((if env.clock tIdx - last < 1 then
                  [Ev.throttleSleep (1 - (env.clock tIdx - last))] else [])
                ++ [Ev.request attempt])
              = ((if env.clock tIdx - last < 1 then
                  [Ev.throttleSleep (1 - (env.clock tIdx - last))] else [])
                ++ ([Ev.request attempt] ++ [])) from by simp]
            rw [throttleDisc_throttleEvs]
            rw [show ([Ev.request attempt] ++ ([] : List Ev)) = [Ev.request attempt]
              from by simp]
            rw [disc_req_nil, henv]
            rfl
      | http status ra body =>
          rw [mbGetAux_http_step env MAX_RETRIES n attempt tIdx last lastExc
            status ra body henv]
          dsimp only
          by_cases hcond : (retryStatus status && decide (attempt < MAX_RETRIES)) = true
          · rw [if_pos hcond]
            dsimp only
            rw [List.append_assoc, List.append_assoc, throttleDisc_throttleEvs]
            rw [show ([Ev.request attempt, Ev.updateLast (env.clock (tIdx + 1))] ++
                ([Ev.backoffSleep (retrySleep ra attempt (env.jitter attempt))] ++
                  (mbGetAux env MAX_RETRIES n (attempt + 1) (tIdx + 2)
                    (env.clock (tIdx + 1)) lastExc).2))
              = Ev.request attempt :: Ev.updateLast (env.clock (tIdx + 1))
                :: Ev.backoffSleep (retrySleep ra attempt (env.jitter attempt))
                :: (mbGetAux env MAX_RETRIES n (attempt + 1) (tIdx + 2)
                    (env.clock (tIdx + 1)) lastExc).2 from rfl]
            rw [disc_req_update, henv, disc_backoff_cons]
            simp only [Bool.true_and]
            exact ih (attempt + 1) (tIdx + 2) (env.clock (tIdx + 1)) lastExc
          · rw [if_neg hcond]
            have hbase : throttleDisc env.server
                ((if env.clock tIdx - last < 1 then
                  [Ev.throttleSleep (1 - (env.clock tIdx - last))] else [])
                ++ [Ev.request attempt, Ev.updateLast (env.clock (tIdx + 1))]) = true := by
              rw [show ((if env.clock tIdx - last < 1 then
                    [Ev.throttleSleep (1 - (env.clock tIdx - last))] else [])
                  ++ [Ev.request attempt, Ev.updateLast (env.clock (tIdx + 1))])
                = ((if env.clock tIdx - last < 1 then
                    [Ev.throttleSleep (1 - (env.clock tIdx - last))] else [])
                  ++ ([Ev.request attempt, Ev.updateLast (env.clock (tIdx + 1))] ++ []))
                from by simp]
              rw [throttleDisc_throttleEvs]
              rw [show ([Ev.request attempt, Ev.updateLast (env.clock (tIdx + 1))]
                  ++ ([] : List Ev))
                = Ev.request attempt :: Ev.updateLast (env.clock (tIdx + 1)) :: []
                from by simp]
              rw [disc_req_update, henv]
              rfl
            split
            · exact hbase
            · split <;> exact hbase

/-- Claim C7 (amended): in every `_mb_get` run, `_last_mb_request` is
updated immediately after each attempt that yields an HTTP response —
success and error status alike — and never otherwise; in particular it is
never updated before a request is issued, and an attempt aborted by a
network-level exception does not update it. -/
theorem c7_throttle_update_discipline (env : TransportEnv) (last0 : ℚ) :
    throttleDisc env.server (_mb_get env last0).2 = true :=
  mbGetAux_disc env (MAX_RETRIES + 1) 0 0 last0 none

theorem c7_throttle_update_discipline_counterexample :
    updatedAfterEveryAttempt (_mb_get
      ⟨fun a => if a = 0 then .net "ConnectionError" else .http 200 none (some ⟨some [], some 0⟩),
        fun _ => 0, fun i => 1000 * (i + 1)⟩ 0).2 = false := by
  norm_num [_mb_get, mbGetAux, MAX_RETRIES, backoff, updatedAfterEveryAttempt]

end CanonComparator
